import Mathlib

/-!
Verification development for the bulk-renamer application
(`src/bulk-renamer.py`).  The renaming pipeline (`RenamingEngine.process`,
lines 82-186), the preview planner (`FileTableModel.update_previews`,
lines 264-269, and the colouring logic of `FileTableModel.data`,
lines 228-237) and the execution loop (`MainWindow.execute_rename`,
lines 639-666) are embedded shallowly.

Modelling conventions:
* Python `str` is modelled by `String` (a list of code points); the
  case-mapping primitives (`str.lower`, `str.upper`, `str.title`,
  `re.IGNORECASE`) are modelled with their ASCII semantics
  (`Char.toLower` / `Char.toUpper` / `Char.isAlpha`).
* Python `int` is `Int`; slice indices use Python's clamping rules
  (`pyBound`, `pySliceTo`, `pySliceFrom`).
* The general regular-expression substitution of stage 1
  (`re.sub(pattern, repl, stem)` on a user-supplied pattern) is a
  parameter `resub : String → String → String → Option String` of the
  pipeline; `none` models a raised `re.error`, which the source catches
  at that stage (lines 100-101: `except re.error: pass`).
* Stage 3's case-insensitive branch uses an *escaped literal* pattern,
  so it is modelled concretely: case-insensitive literal matching plus
  CPython's replacement-template expansion (`parseTemplate`).  A bad
  template raises `re.error` there with no handler in the source, so
  the whole pipeline returns `Option String`; `none` models an uncaught
  exception escaping `process`.
-/

/-! ### Python string primitives -/

/-- Clamp a Python slice bound to `[0, n]` for a string of length `n`:
negative indices count from the end. -/
def pyBound (n : Nat) (i : Int) : Nat :=
  if i < 0 then ((n : Int) + i).toNat else min i.toNat n

/-- Python `s[:b]`. -/
def pySliceTo (s : String) (b : Int) : String :=
  ⟨s.data.take (pyBound s.data.length b)⟩

/-- Python `s[a:]`. -/
def pySliceFrom (s : String) (a : Int) : String :=
  ⟨s.data.drop (pyBound s.data.length a)⟩

/-- Python `str.zfill(width)`: left-pad with `'0'` to the requested
width, inserting the padding after a leading sign character. -/
def pyZfill (w : Int) (s : String) : String :=
  if (s.data.length : Int) ≥ w then s
  else
    let pad := (w - (s.data.length : Int)).toNat
    match s.data with
    | c :: rest =>
      if c = '-' ∨ c = '+' then ⟨c :: (List.replicate pad '0' ++ rest)⟩
      else ⟨List.replicate pad '0' ++ s.data⟩
    | [] => ⟨List.replicate pad '0'⟩

/-- Python `str.lower` (ASCII model). -/
def pyLower (s : String) : String := ⟨s.data.map Char.toLower⟩

/-- Python `str.upper` (ASCII model). -/
def pyUpper (s : String) : String := ⟨s.data.map Char.toUpper⟩

/-- Python `str.title` (ASCII model): walks the string keeping a flag
telling whether the previous character was cased (a letter); a letter
after a non-letter is uppercased, a letter after a letter is
lowercased. -/
def pyTitleAux : Bool → List Char → List Char
  | _, [] => []
  | prevCased, c :: cs =>
    (if prevCased then c.toLower else c.toUpper) :: pyTitleAux c.isAlpha cs

/-- Python `str.title` (ASCII model). -/
def pyTitle (s : String) : String := ⟨pyTitleAux false s.data⟩

/-- Non-overlapping left-to-right literal replacement on character
lists, as done by Python `str.replace` for a non-empty needle. -/
def pyReplaceAux (nd rp : List Char) : List Char → List Char
  | [] => []
  | c :: cs =>
    if nd ≠ [] ∧ nd.isPrefixOf (c :: cs) then
      rp ++ pyReplaceAux nd rp (cs.drop (nd.length - 1))
    else
      c :: pyReplaceAux nd rp cs
termination_by l => l.length
decreasing_by
  · simp only [List.length_drop, List.length_cons]
    omega
  · simp only [List.length_cons]
    omega

/-- Python `str.replace`.  The empty-needle case (which inserts the
replacement around every character) is included for fidelity, although
every call site in the source guards against it. -/
def pyStrReplace (s nd rp : String) : String :=
  if nd.data = [] then ⟨rp.data ++ (s.data.map (fun c => c :: rp.data)).flatten⟩
  else ⟨pyReplaceAux nd.data rp.data s.data⟩

/-- The characters escaped by `re.escape` (CPython's
`_special_chars_map`). -/
def reSpecialChars : List Char :=
  ['(', ')', '[', ']', '{', '}', '?', '*', '+', '-', '|', '^', '$',
   '\\', '.', '&', '~', '#', ' ', '\t', '\n', '\r', '\x0b', '\x0c']

/-- Python `re.escape`. -/
def pyReEscape (s : String) : String :=
  ⟨(s.data.map (fun c => if c ∈ reSpecialChars then ['\\', c] else [c])).flatten⟩

/-! ### CPython replacement templates

`Pattern.sub(repl, s)` first expands the backslash escapes of the
replacement string `repl` (CPython `re._parser.parse_template`); a bad
escape or a reference to a group the pattern does not have raises
`re.error` before any matching happens.  The patterns built by the
source's stage 3 are escaped literals, so they have zero capture
groups: the only group reference that survives is `\g<0>` (the whole
match). -/

/-- One piece of a parsed replacement template: a literal character or
a reference to group 0 (the whole match). -/
inductive TmplChunk where
  | lit (c : Char)
  | group0
deriving DecidableEq

/-- Octal digit test. -/
def isOct (c : Char) : Bool := '0' ≤ c ∧ c ≤ '7'

/-- Value of an octal digit. -/
def octVal (c : Char) : Nat := c.toNat - '0'.toNat

/-- Read a `\g<name>` group reference: expects the input to start right
after the `g`; returns the name and the total number of characters
consumed (`<`, the name, `>`). -/
def readGroupRef (l : List Char) : Option (List Char × Nat) :=
  match l with
  | [] => none
  | c :: rest =>
    if c = '<' then
      let name := rest.takeWhile (fun d => d ≠ '>')
      match rest.drop name.length with
      | [] => none
      | e :: _ => if e = '>' then some (name, name.length + 2) else none
    else none

/-- CPython `parse_template` specialised to a zero-group pattern
(stage 3 compiles `re.escape(literal)`): `none` models `re.error`. -/
def parseTemplate : List Char → Option (List TmplChunk)
  | [] => some []
  | c :: rest =>
    if c = '\\' then
      match rest with
      | [] => none  -- "bad escape (end of pattern)"
      | 'g' :: rest2 =>
        match readGroupRef rest2 with
        | none => none  -- "missing <" / unterminated group name
        | some (name, k) =>
          -- only group 0 exists; any other reference raises
          if name ≠ [] ∧ name.all (fun d => d = '0') then
            (parseTemplate (rest2.drop k)).map (fun t => TmplChunk.group0 :: t)
          else none
      | '0' :: rest2 =>
        -- octal escape: up to two further octal digits
        let ds := (rest2.takeWhile (fun d => isOct d)).take 2
        (parseTemplate (rest2.drop ds.length)).map
          (fun t => TmplChunk.lit (Char.ofNat (ds.foldl (fun a d => a * 8 + octVal d) 0 % 256)) :: t)
      | d :: rest2 =>
        if d.isDigit then
          -- \1..\99 are group references (errors here) unless the
          -- three characters form an octal escape
          match rest2 with
          | e1 :: e2 :: r2 =>
            if isOct d ∧ isOct e1 ∧ isOct e2 then
              (parseTemplate r2).map
                (fun t => TmplChunk.lit
                  (Char.ofNat ((octVal d * 64 + octVal e1 * 8 + octVal e2) % 256)) :: t)
            else none
          | _ => none
        else if d = 'a' then (parseTemplate rest2).map (fun t => TmplChunk.lit (Char.ofNat 7) :: t)
        else if d = 'b' then (parseTemplate rest2).map (fun t => TmplChunk.lit (Char.ofNat 8) :: t)
        else if d = 'f' then (parseTemplate rest2).map (fun t => TmplChunk.lit (Char.ofNat 12) :: t)
        else if d = 'n' then (parseTemplate rest2).map (fun t => TmplChunk.lit (Char.ofNat 10) :: t)
        else if d = 'r' then (parseTemplate rest2).map (fun t => TmplChunk.lit (Char.ofNat 13) :: t)
        else if d = 't' then (parseTemplate rest2).map (fun t => TmplChunk.lit (Char.ofNat 9) :: t)
        else if d = 'v' then (parseTemplate rest2).map (fun t => TmplChunk.lit (Char.ofNat 11) :: t)
        else if d = '\\' then (parseTemplate rest2).map (fun t => TmplChunk.lit '\\' :: t)
        else if d.isAlpha then none  -- "bad escape" for unknown ASCII letters
        else
          -- unknown non-letter escape: kept verbatim, backslash included
          (parseTemplate rest2).map (fun t => TmplChunk.lit '\\' :: TmplChunk.lit d :: t)
    else
      (parseTemplate rest).map (fun t => TmplChunk.lit c :: t)
termination_by l => l.length
decreasing_by
  all_goals simp_all only [List.length_cons, List.length_drop]
  all_goals omega

/-- Expand a parsed template at a concrete matched slice. -/
def renderTmpl (tmpl : List TmplChunk) (matched : List Char) : List Char :=
  (tmpl.map (fun ch => match ch with
    | TmplChunk.lit c => [c]
    | TmplChunk.group0 => matched)).flatten

/-- Case-insensitive prefix test (ASCII `re.IGNORECASE` model). -/
def ciIsPrefixOf : List Char → List Char → Bool
  | [], _ => true
  | _ :: _, [] => false
  | a :: xs, b :: ys => (a.toLower = b.toLower : Bool) && ciIsPrefixOf xs ys

/-- Case-insensitive, non-overlapping, left-to-right substitution of a
literal needle, expanding the replacement template at each match: the
behaviour of `re.compile(re.escape(nd), re.IGNORECASE).sub(repl, s)`
once `repl` has parsed to `tmpl`. -/
def ciSubAux (nd : List Char) (tmpl : List TmplChunk) : List Char → List Char
  | [] => []
  | c :: cs =>
    if nd ≠ [] ∧ ciIsPrefixOf nd (c :: cs) then
      renderTmpl tmpl ((c :: cs).take nd.length) ++ ciSubAux nd tmpl (cs.drop (nd.length - 1))
    else
      c :: ciSubAux nd tmpl cs
termination_by l => l.length
decreasing_by
  · simp only [List.length_drop, List.length_cons]
    omega
  · simp only [List.length_cons]
    omega

/-! ### Configuration (`RenameConfig`, lines 31-74)

The mode fields are strings in the source, drawn from fixed combo-box
item lists (lines 473, 497, 549, 583); they are embedded as the
corresponding enumerations.  Numeric fields are Python ints.  Field
defaults mirror `RenameConfig.__init__`. -/

/-- `name_mode`: "Keep", "Remove", "Fixed", "Reverse". -/
inductive NameMode where
  | Keep | Remove | Fixed | Reverse
deriving DecidableEq

/-- `case_mode`: "Same", "Lower", "Upper", "Title". -/
inductive CaseMode where
  | Same | Lower | Upper | Title
deriving DecidableEq

/-- `num_mode`: "None", "Prefix", "Suffix", "Insert" (`Pre` stands for
the source's "Prefix" string). -/
inductive NumMode where
  | None | Pre | Suffix | Insert
deriving DecidableEq

/-- `ext_mode`: "Same", "Lower", "Upper", "Remove", "Fixed". -/
inductive ExtMode where
  | Same | Lower | Upper | Remove | Fixed
deriving DecidableEq

/-- The state of all configuration groups (`RenameConfig`, lines
31-74); defaults are the constructor's initial values. -/
structure RenameConfig where
  regex_match : String := ""
  regex_replace : String := ""
  regex_simple : Bool := false
  name_mode : NameMode := NameMode.Keep
  name_fixed : String := ""
  replace_str : String := ""
  replace_with : String := ""
  replace_case : Bool := false
  case_mode : CaseMode := CaseMode.Same
  remove_first : Int := 0
  remove_last : Int := 0
  remove_from : Int := 0
  remove_to : Int := 0
  remove_chars : String := ""
  add_prefix : String := ""
  add_suffix : String := ""
  add_insert : String := ""
  add_at_pos : Int := 0
  num_mode : NumMode := NumMode.None
  num_start : Int := 1
  num_incr : Int := 1
  num_pad : Int := 0
  num_sep : String := ""
  num_at : Int := 0
  ext_mode : ExtMode := ExtMode.Same
  ext_fixed : String := ""
deriving DecidableEq

/-- The configuration with every stage at its identity setting: the
default `RenameConfig` (lines 33-74). -/
def identityConfig : RenameConfig := {}

/-! ### Filename splitting (`pathlib`, lines 84-86)

`pathlib.Path(original_name)` parses the string as a POSIX path:
components are separated by `/`, and empty or `"."` components are
dropped; `.name` is the last remaining component (or empty).
`.suffix` / `.stem` then split `.name` at its last dot, but only when
that dot is at an interior position (`0 < i < len(name) - 1`). -/

/-- Split a character list at `/` separators. -/
def splitSlashAux : List Char → List Char → List (List Char)
  | [], acc => [acc.reverse]
  | c :: cs, acc =>
    if c = '/' then acc.reverse :: splitSlashAux cs []
    else splitSlashAux cs (c :: acc)

/-- `pathlib.Path(s).name`: the last path component after dropping
empty and `"."` components. -/
def pathName (s : String) : String :=
  ⟨((splitSlashAux s.data []).filter
      (fun comp => decide (comp ≠ [] ∧ comp ≠ ['.']))).getLastD []⟩

/-- Python `name.rfind('.')`: the largest index holding `'.'`, or
`-1`. -/
def pyRfindDot : List Char → Int
  | [] => -1
  | c :: cs =>
    let r := pyRfindDot cs
    if r ≥ 0 then r + 1 else if c = '.' then 0 else -1

/-- `pathlib`'s `suffix` computation on a bare name. -/
def nameSuffix (nm : List Char) : List Char :=
  let i := pyRfindDot nm
  if 0 < i ∧ i < (nm.length : Int) - 1 then nm.drop i.toNat else []

/-- `pathlib`'s `stem` computation on a bare name. -/
def nameStem (nm : List Char) : List Char :=
  let i := pyRfindDot nm
  if 0 < i ∧ i < (nm.length : Int) - 1 then nm.take i.toNat else nm

/-- `pathlib.Path(s).stem` (line 85). -/
def pStem (s : String) : String := ⟨nameStem (pathName s).data⟩

/-- `pathlib.Path(s).suffix` (line 86), dot included. -/
def pSuffix (s : String) : String := ⟨nameSuffix (pathName s).data⟩

/-! ### The pipeline stages of `RenamingEngine.process` (lines 82-186) -/

/-- Stage 1, RegEx (lines 89-101).  `resub pattern repl stem` models
`re.sub(pattern, repl, stem)` together with the preceding compile;
`none` models a raised `re.error`, which this stage swallows, leaving
the stem unchanged. -/
def regexStage (resub : String → String → String → Option String)
    (config : RenameConfig) (stem : String) : String :=
  if config.regex_match ≠ "" then
    let pattern :=
      if config.regex_simple then
        pyStrReplace (pyReEscape config.regex_match) "\\*" ".*"
      else config.regex_match
    match resub pattern config.regex_replace stem with
    | some s => s
    | none => stem
  else stem

/-- Stage 2, Name (lines 104-109). -/
def nameStage (config : RenameConfig) (stem : String) : String :=
  match config.name_mode with
  | NameMode.Keep => stem
  | NameMode.Remove => ""
  | NameMode.Fixed => config.name_fixed
  | NameMode.Reverse => ⟨stem.data.reverse⟩

/-- Stage 3, Replace (lines 112-118).  The case-sensitive branch is
`str.replace`; the case-insensitive branch compiles the escaped
literal and substitutes, where a bad replacement template raises
`re.error` with no handler in this stage — modelled by `none`. -/
def replaceStage (config : RenameConfig) (stem : String) : Option String :=
  if config.replace_str ≠ "" then
    if config.replace_case then
      some (pyStrReplace stem config.replace_str config.replace_with)
    else
      match parseTemplate config.replace_with.data with
      | none => none
      | some tmpl => some ⟨ciSubAux config.replace_str.data tmpl stem.data⟩
  else some stem

/-- The From/To sub-step of stage 5 (lines 127-133): remove the 1-based
inclusive range `[from, to]`, with 0 meaning "unset". -/
def removeRangeStep (remove_from remove_to : Int) (stem : String) : String :=
  if remove_from > 0 ∨ remove_to > 0 then
    let start := max 0 (remove_from - 1)
    let stop := if remove_to > 0 then remove_to else (stem.data.length : Int)
    if start < (stem.data.length : Int) then
      pySliceTo stem start ++ pySliceFrom stem stop
    else stem
  else stem

/-- Stage 5, Remove (lines 122-137): first `n`, last `n`, From/To
range, then a character set. -/
def removeStage (config : RenameConfig) (stem0 : String) : String :=
  let stem1 :=
    if config.remove_first > 0 then pySliceFrom stem0 config.remove_first else stem0
  let stem2 :=
    if config.remove_last > 0 ∧ (stem1.data.length : Int) > config.remove_last then
      pySliceTo stem1 (-config.remove_last)
    else stem1
  let stem3 := removeRangeStep config.remove_from config.remove_to stem2
  if config.remove_chars ≠ "" then
    ⟨stem3.data.filter (fun c => !(config.remove_chars.data.contains c))⟩
  else stem3

/-- Stage 7, Add (lines 140-149). -/
def addStage (config : RenameConfig) (stem0 : String) : String :=
  let stem1 := if config.add_prefix ≠ "" then config.add_prefix ++ stem0 else stem0
  let stem2 := if config.add_suffix ≠ "" then stem1 ++ config.add_suffix else stem1
  if config.add_insert ≠ "" then
    let pos := config.add_at_pos
    if pos ≥ (stem2.data.length : Int) then stem2 ++ config.add_insert
    else pySliceTo stem2 pos ++ config.add_insert ++ pySliceFrom stem2 pos
  else stem2

/-- Stage 10, Numbering (lines 152-165). -/
def numberingStage (config : RenameConfig) (index : Int) (stem : String) : String :=
  if config.num_mode ≠ NumMode.None then
    let num_val := config.num_start + index * config.num_incr
    let num_str := pyZfill config.num_pad (toString num_val)
    let full_num_str :=
      if config.num_mode = NumMode.Suffix then config.num_sep ++ num_str
      else num_str ++ config.num_sep
    match config.num_mode with
    | NumMode.Pre => full_num_str ++ stem
    | NumMode.Suffix => stem ++ full_num_str
    | NumMode.Insert =>
      pySliceTo stem config.num_at ++ full_num_str ++ pySliceFrom stem config.num_at
    | NumMode.None => stem
  else stem

/-- Stage 4, Case — applied after numbering (lines 169-174). -/
def caseStage (mode : CaseMode) (stem : String) : String :=
  match mode with
  | CaseMode.Same => stem
  | CaseMode.Lower => pyLower stem
  | CaseMode.Upper => pyUpper stem
  | CaseMode.Title => pyTitle stem

/-- Stage 11, Extension (lines 177-184). -/
def extStage (config : RenameConfig) (ext : String) : String :=
  match config.ext_mode with
  | ExtMode.Same => ext
  | ExtMode.Lower => pyLower ext
  | ExtMode.Upper => pyUpper ext
  | ExtMode.Remove => ""
  | ExtMode.Fixed =>
    if config.ext_fixed.startsWith "." then config.ext_fixed
    else "." ++ config.ext_fixed

/-- `RenamingEngine.process` (lines 82-186): split the name, run the
stages in source order (1, 2, 3, 5, 7, 10, 4, 11), recombine.  `none`
models an exception escaping `process` (possible only from the
unguarded substitution of stage 3). -/
def process (resub : String → String → String → Option String)
    (original_name : String) (config : RenameConfig) (index : Int) : Option String :=
  let stem0 := pStem original_name
  let ext := pSuffix original_name
  let stem1 := regexStage resub config stem0
  let stem2 := nameStage config stem1
  match replaceStage config stem2 with
  | none => none
  | some stem3 =>
    let stem4 := removeStage config stem3
    let stem5 := addStage config stem4
    let stem6 := numberingStage config index stem5
    let stem7 := caseStage config.case_mode stem6
    let ext' := extStage config ext
    some (stem7 ++ ext')

/-! ### Data model and planner (`FileItem`, `FileTableModel`) -/

/-- `FileItem` (lines 192-199).  `path` is the full path string,
`modified` an `st_mtime` timestamp (its numeric value never influences
renaming; modelled as an integer). -/
structure FileItem where
  path : String
  original_name : String
  new_name : String
  size : Nat
  modified : Int
  status : String := "OK"
deriving DecidableEq

/-- The two brushes returned by `FileTableModel.data` for the
"New Name" column (lines 233-235). -/
inductive PreviewColor where
  | red | green
deriving DecidableEq

/-- The foreground-role result of `FileTableModel.data` for the
"New Name" column (lines 228-237): `none` when the name is unchanged,
red when the new name is duplicated in the batch, green otherwise. -/
def foregroundColor (files : List FileItem) (item : FileItem) : Option PreviewColor :=
  if item.new_name ≠ item.original_name then
    let all_new_names := files.map (fun f => f.new_name)
    if all_new_names.count item.new_name > 1 then some PreviewColor.red
    else some PreviewColor.green
  else none

/-- Loop body of `FileTableModel.update_previews` (lines 264-269):
`enumerate` starts at 0 and each item receives `index = i + 1`.  The
whole pass returns `none` if `process` raises on some item. -/
def updatePreviewsAux (resub : String → String → String → Option String)
    (config : RenameConfig) : Nat → List FileItem → Option (List FileItem)
  | _, [] => some []
  | i, item :: rest =>
    match process resub item.original_name config ((i + 1 : Nat) : Int) with
    | none => none
    | some nn =>
      match updatePreviewsAux resub config (i + 1) rest with
      | none => none
      | some rest' => some ({ item with new_name := nn } :: rest')

/-- `FileTableModel.update_previews` (lines 264-269). -/
def update_previews (resub : String → String → String → Option String)
    (files : List FileItem) (config : RenameConfig) : Option (List FileItem) :=
  updatePreviewsAux resub config 0 files

/-! ### Executor (`MainWindow.execute_rename`, lines 639-666) -/

/-- `str(PurePosixPath(p).parent / child)` for the file paths the
application passes (`item.path.parent / item.new_name`, line 648). -/
def parentJoin (p child : String) : String :=
  let comps := (splitSlashAux p.data []).filter
    (fun comp => decide (comp ≠ [] ∧ comp ≠ ['.']))
  let isAbs := p.data.take 1 = ['/']
  match comps.dropLast with
  | [] => if isAbs then "/" ++ child else child
  | parent =>
    (if isAbs then "/" else "") ++ ⟨(parent.intersperse ['/']).flatten⟩ ++ "/" ++ child

/-- The rename loop of `MainWindow.execute_rename` (lines 640-654),
parameterised by the filesystem: `osRename s old new` returns the new
filesystem state and `none` on success or `some msg` when `os.rename`
raises.  Result: final state, `success_count`, and the `errors` list in
iteration order (entries formatted `f"{item.original_name}: {e}"`,
line 654). -/
def executeRename {σ : Type} (osRename : σ → String → String → σ × Option String) :
    List FileItem → σ → σ × Nat × List String
  | [], s => (s, 0, [])
  | item :: rest, s =>
    if item.original_name = item.new_name then executeRename osRename rest s
    else
      match osRename s item.path (parentJoin item.path item.new_name) with
      | (s1, none) =>
        let r := executeRename osRename rest s1
        (r.1, r.2.1 + 1, r.2.2)
      | (s1, some msg) =>
        let r := executeRename osRename rest s1
        (r.1, r.2.1, (item.original_name ++ ": " ++ msg) :: r.2.2)

/-! ### Specification-side comparison definitions

These follow the wording of the specification (not the source) and are
used only to compare against the embedded code. -/

/-- Per-item rename outcomes in plan order, skipping unchanged items:
the specification's `RenameResult` view (one `(original_name, outcome)`
pair per attempted item, §4.3). -/
def execOutcomes {σ : Type} (osRename : σ → String → String → σ × Option String) :
    List FileItem → σ → σ × List (String × Option String)
  | [], s => (s, [])
  | item :: rest, s =>
    if item.original_name = item.new_name then execOutcomes osRename rest s
    else
      let r1 := osRename s item.path (parentJoin item.path item.new_name)
      let r2 := execOutcomes osRename rest r1.1
      (r2.1, (item.original_name, r1.2) :: r2.2)

/-- Title-casing as worded by the claim for C8: words are delimited by
whitespace only; the first letter of each word is capitalised and the
remaining word characters lowercased. -/
def titleWhitespaceRule (s : String) : String :=
  ⟨(s.data.zip (none :: s.data.map some)).map
    (fun p =>
      if (p.2.map Char.isWhitespace).getD true then p.1.toUpper else p.1.toLower)⟩

/-- Title-casing as the code actually behaves (amended C8): any
non-letter is a word boundary; a letter preceded by a letter is
lowercased, a letter preceded by a non-letter (or at the start) is
uppercased. -/
def titleNonLetterBoundaryRule (s : String) : String :=
  ⟨(s.data.zip (none :: s.data.map some)).map
    (fun p =>
      if (p.2.map Char.isAlpha).getD false then p.1.toLower else p.1.toUpper)⟩

/-- The extension rule as worded by claim C7: the text from the last
dot onward, empty when there is no dot or when the name is a dotfile
with no further dot. -/
def claimExtRule (nm : List Char) : List Char :=
  if '.' ∈ nm then
    if pyRfindDot nm = 0 then [] else nm.drop (pyRfindDot nm).toNat
  else []

/-! ### Concrete instances used by the claim theorems -/

/-- A stage-1 substitution oracle for runs whose configuration leaves
`regex_match` empty (the stage is skipped, so the oracle is never
consulted). -/
def resubId : String → String → String → Option String := fun _ _ s => some s

/-- The C1 scenario configuration: numbering Suffix, start 1,
increment 1, pad 2, separator "_", everything else identity. -/
def c1Config : RenameConfig :=
  { identityConfig with
      num_mode := NumMode.Suffix, num_start := 1, num_incr := 1,
      num_pad := 2, num_sep := "_" }

/-- The C1 scenario batch: two files `a.txt`, `b.txt`. -/
def c1Files : List FileItem :=
  [{ path := "/d/a.txt", original_name := "a.txt", new_name := "a.txt",
     size := 0, modified := 0 },
   { path := "/d/b.txt", original_name := "b.txt", new_name := "b.txt",
     size := 0, modified := 0 }]

/-- A single-file batch whose name the identity configuration leaves
unchanged. -/
def itemA : FileItem :=
  { path := "/d/a.txt", original_name := "a.txt", new_name := "a.txt",
    size := 0, modified := 0 }

/-- Fixed-name configuration mapping every stem to `x`. -/
def fixedXConfig : RenameConfig :=
  { identityConfig with name_mode := NameMode.Fixed, name_fixed := "x" }

/-- Batch for the C4 counterexample: `x.txt` (already named `x.txt`)
and `b.txt`; under `fixedXConfig` both compute `x.txt`. -/
def c4Files : List FileItem :=
  [{ path := "/d/x.txt", original_name := "x.txt", new_name := "x.txt",
     size := 0, modified := 0 },
   { path := "/d/b.txt", original_name := "b.txt", new_name := "b.txt",
     size := 0, modified := 0 }]

/-- A plan in which two distinct changed items collide (used to witness
the amended C4). -/
def c4PlanW : List FileItem :=
  [{ path := "/d/foo.txt", original_name := "foo.txt", new_name := "x.txt",
     size := 0, modified := 0 },
   { path := "/d/bar.txt", original_name := "bar.txt", new_name := "x.txt",
     size := 0, modified := 0 }]

/-- The C5 failing configuration: case-insensitive replace with a
replacement text holding the bad escape `\q`. -/
def c5Config : RenameConfig :=
  { identityConfig with replace_str := "a", replace_with := "\\q" }


/-- Numbering configuration used to witness C2: Suffix mode, start 5,
increment 3, pad 3, separator "-". -/
def c2ConfigW : RenameConfig :=
  { identityConfig with
      num_mode := NumMode.Suffix, num_start := 5, num_incr := 3,
      num_pad := 3, num_sep := "-" }

/-- The plan computed from `c4Files` under `fixedXConfig`. -/
def c4Plan : List FileItem :=
  [{ path := "/d/x.txt", original_name := "x.txt", new_name := "x.txt",
     size := 0, modified := 0 },
   { path := "/d/b.txt", original_name := "b.txt", new_name := "x.txt",
     size := 0, modified := 0 }]

/-! ### Helper lemmas -/

theorem strMkAppend (a b : List Char) : (⟨a⟩ ++ ⟨b⟩ : String) = ⟨a ++ b⟩ := rfl

theorem strDataMk (l : List Char) : (⟨l⟩ : String).data = l := rfl

theorem dropMinLength {α : Type} (l : List α) (a : Nat) :
    l.drop (min a l.length) = l.drop a := by
  rcases le_or_lt a l.length with h | h
  · rw [min_eq_left h]
  · rw [min_eq_right h.le, List.drop_length, List.drop_eq_nil_iff.mpr h.le]

theorem splitSlashAux_no_slash :
    ∀ (l acc : List Char), '/' ∉ l → splitSlashAux l acc = [acc.reverse ++ l] := by
  intro l
  induction l with
  | nil => intro acc _; simp [splitSlashAux]
  | cons c cs ih =>
    intro acc hmem
    have hc : c ≠ '/' := fun h => hmem (h ▸ List.mem_cons_self c cs)
    have hcs : '/' ∉ cs := fun h => hmem (List.mem_cons_of_mem c h)
    simp only [splitSlashAux]
    rw [if_neg hc, ih (c :: acc) hcs]
    simp

theorem pathName_eq_self (s : String) (h1 : '/' ∉ s.data) (h2 : s ≠ ".") :
    pathName s = s := by
  have hdot : s.data ≠ ['.'] := by
    intro h
    apply h2
    have hmk : (⟨s.data⟩ : String) = (⟨['.']⟩ : String) := by rw [h]
    exact hmk
  by_cases hn : s.data = []
  · have hs : s = "" := by
      have hmk : (⟨s.data⟩ : String) = (⟨[]⟩ : String) := by rw [hn]
      exact hmk
    subst hs
    rfl
  · unfold pathName
    rw [splitSlashAux_no_slash s.data [] h1]
    simp only [List.reverse_nil, List.nil_append, List.filter_cons, List.filter_nil]
    rw [if_pos (by simp only [decide_eq_true_eq, ne_eq]; exact ⟨hn, hdot⟩)]
    rfl

theorem stem_append_suffix (nm : List Char) : nameStem nm ++ nameSuffix nm = nm := by
  unfold nameStem nameSuffix
  by_cases h : 0 < pyRfindDot nm ∧ pyRfindDot nm < (nm.length : Int) - 1
  · rw [if_pos h, if_pos h, List.take_append_drop]
  · rw [if_neg h, if_neg h, List.append_nil]

theorem pyRfindDot_ge_neg_one : ∀ l : List Char, -1 ≤ pyRfindDot l := by
  intro l
  induction l with
  | nil => simp [pyRfindDot]
  | cons c cs ih =>
    simp only [pyRfindDot]
    by_cases hr : pyRfindDot cs ≥ 0
    · rw [if_pos hr]; omega
    · rw [if_neg hr]
      by_cases hc : c = '.' <;> simp [hc]

theorem pyRfindDot_eq_neg_one_iff :
    ∀ l : List Char, pyRfindDot l = -1 ↔ '.' ∉ l := by
  intro l
  induction l with
  | nil => simp [pyRfindDot]
  | cons c cs ih =>
    simp only [pyRfindDot]
    by_cases hr : pyRfindDot cs ≥ 0
    · rw [if_pos hr]
      constructor
      · intro h; omega
      · intro h
        exfalso
        have hmem : '.' ∈ cs := by
          by_contra hniel
          rw [← ih] at hniel
          omega
        exact h (List.mem_cons_of_mem c hmem)
    · rw [if_neg hr]
      have hni : '.' ∉ cs := by
        rw [← ih]
        have := pyRfindDot_ge_neg_one cs
        omega
      by_cases hc : c = '.'
      · rw [if_pos hc]
        constructor
        · intro h; omega
        · intro h; exact absurd (hc ▸ List.mem_cons_self c cs) h
      · rw [if_neg hc]
        constructor
        · intro _
          simp only [List.mem_cons]
          intro hmem
          rcases hmem with h | h
          · exact hc h.symm
          · exact hni h
        · intro _
          rfl

theorem pyRfindDot_last (s t : List Char) (ht : '.' ∉ t) :
    pyRfindDot (s ++ '.' :: t) = (s.length : Int) := by
  induction s with
  | nil =>
    simp only [List.nil_append, pyRfindDot]
    rw [if_neg (by have := (pyRfindDot_eq_neg_one_iff t).mpr ht; omega)]
    simp
  | cons c s' ih =>
    simp only [List.cons_append, pyRfindDot, List.append_eq]
    rw [if_pos (by rw [ih]; omega), ih]
    simp only [List.length_cons]
    push_cast
    ring

theorem pyRfindDot_mem_decomp (l : List Char) (h : '.' ∈ l) :
    ∃ s t, l = s ++ '.' :: t ∧ '.' ∉ t ∧ (s.length : Int) = pyRfindDot l := by
  induction l with
  | nil => exact absurd h (List.not_mem_nil '.')
  | cons c cs ih =>
    by_cases hin : '.' ∈ cs
    · obtain ⟨s, t, heq, hnt, hlen⟩ := ih hin
      refine ⟨c :: s, t, by rw [heq, List.cons_append], hnt, ?_⟩
      simp only [pyRfindDot]
      rw [if_pos (by rw [← hlen]; omega)]
      simp only [List.length_cons]
      push_cast
      omega
    · have hc : c = '.' := by
        rcases List.mem_cons.mp h with h1 | h1
        · exact h1.symm
        · exact absurd h1 hin
      refine ⟨[], cs, by rw [hc, List.nil_append], hin, ?_⟩
      simp only [pyRfindDot]
      rw [if_neg (by have := (pyRfindDot_eq_neg_one_iff cs).mpr hin; omega), if_pos hc]
      simp

theorem pyZfill_length (w : Int) (s : String) :
    (pyZfill w s).data.length = max w.toNat s.data.length := by
  unfold pyZfill
  by_cases h : (s.data.length : Int) ≥ w
  · rw [if_pos h]
    omega
  · rw [if_neg h]
    rcases hd : s.data with _ | ⟨c, rest⟩ <;> rw [hd] at h <;> dsimp only
    · simp only [strDataMk, List.length_replicate, List.length_nil] at h ⊢
      omega
    · simp only [List.length_cons] at h
      by_cases hsign : c = '-' ∨ c = '+'
      · rw [if_pos hsign]
        simp only [strDataMk, List.length_cons, List.length_append, List.length_replicate]
        omega
      · rw [if_neg hsign]
        simp only [strDataMk, List.length_append, List.length_replicate, List.length_cons]
        omega

theorem pyTitleAux_zip (l : List Char) :
    ∀ p : Option Char,
      pyTitleAux ((p.map Char.isAlpha).getD false) l
        = (l.zip (p :: l.map some)).map
            (fun q => if (q.2.map Char.isAlpha).getD false then q.1.toLower else q.1.toUpper) := by
  induction l with
  | nil => intro p; simp [pyTitleAux]
  | cons c cs ih =>
    intro p
    simp only [List.map_cons, List.zip_cons_cons, pyTitleAux]
    rw [← ih (some c)]
    rcases p with _ | q
    · simp
    · simp

theorem twoLeCountOfGet {α : Type} [DecidableEq α] (L : List α) (i j : Nat)
    (hi : i < L.length) (hj : j < L.length) (hij : i < j)
    (hv : L.get ⟨i, hi⟩ = L.get ⟨j, hj⟩) :
    2 ≤ L.count (L.get ⟨i, hi⟩) := by
  have hlt : i < (L.take j).length := by
    simp only [List.length_take]
    omega
  have hmem1 : L.get ⟨i, hi⟩ ∈ L.take j := by
    have hx : (L.take j).get ⟨i, hlt⟩ = L.get ⟨i, hi⟩ := List.getElem_take L
    rw [← hx]
    exact List.get_mem _ _ hlt
  have hmem2 : L.get ⟨i, hi⟩ ∈ L.drop j := by
    rw [List.drop_eq_getElem_cons hj]
    have hji : L[j] = L.get ⟨i, hi⟩ := by
      rw [hv]
      rfl
    rw [hji]
    exact List.mem_cons_self _ _
  have hcount := List.count_append (L.get ⟨i, hi⟩) (L.take j) (L.drop j)
  rw [List.take_append_drop] at hcount
  have h1 : 0 < (L.take j).count (L.get ⟨i, hi⟩) := List.count_pos_iff.mpr hmem1
  have h2 : 0 < (L.drop j).count (L.get ⟨i, hi⟩) := List.count_pos_iff.mpr hmem2
  omega

theorem updatePreviewsAux_spec (resub : String → String → String → Option String)
    (cfg : RenameConfig) :
    ∀ (files files' : List FileItem) (i0 : Nat),
      updatePreviewsAux resub cfg i0 files = some files' →
      files'.length = files.length ∧
      ∀ k (hk : k < files.length) (hk' : k < files'.length),
        some ((files'.get ⟨k, hk'⟩).new_name)
          = process resub ((files.get ⟨k, hk⟩).original_name) cfg ((i0 + k + 1 : Nat) : Int)
        ∧ (files'.get ⟨k, hk'⟩).status = (files.get ⟨k, hk⟩).status
        ∧ (files'.get ⟨k, hk'⟩).original_name = (files.get ⟨k, hk⟩).original_name := by
  intro files
  induction files with
  | nil =>
    intro files' i0 h
    simp only [updatePreviewsAux, Option.some.injEq] at h
    subst h
    refine ⟨rfl, ?_⟩
    intro k hk
    exact absurd hk (by simp)
  | cons it rest ih =>
    intro files' i0 h
    simp only [updatePreviewsAux] at h
    rcases hp : process resub it.original_name cfg ((i0 + 1 : Nat) : Int) with _ | nn <;>
        rw [hp] at h
    · exact absurd h (by simp)
    · rcases ha : updatePreviewsAux resub cfg (i0 + 1) rest with _ | rest' <;> rw [ha] at h
      · exact absurd h (by simp)
      · obtain ⟨hlen, hspec⟩ := ih rest' (i0 + 1) ha
        simp only [Option.some.injEq] at h
        subst h
        constructor
        · simp [hlen]
        · intro k hk hk'
          cases k with
          | zero =>
            refine ⟨?_, rfl, rfl⟩
            simp only [List.get]
            rw [show i0 + 0 + 1 = i0 + 1 from by omega]
            exact hp.symm
          | succ k' =>
            have hk2 : k' < rest.length := by simpa using hk
            have hk2' : k' < rest'.length := by simpa using hk'
            have hs := hspec k' hk2 hk2'
            rw [show i0 + 1 + k' + 1 = i0 + (k' + 1) + 1 from by omega] at hs
            exact hs

theorem executeRename_refines {σ : Type}
    (osRename : σ → String → String → σ × Option String) :
    ∀ (files : List FileItem) (s0 : σ),
      (executeRename osRename files s0).1 = (execOutcomes osRename files s0).1
      ∧ (executeRename osRename files s0).2.1
          = (execOutcomes osRename files s0).2.countP (fun p => p.2.isNone)
      ∧ (executeRename osRename files s0).2.2
          = (execOutcomes osRename files s0).2.filterMap
              (fun p => p.2.map (fun m => p.1 ++ ": " ++ m))
      ∧ (execOutcomes osRename files s0).2.map Prod.fst
          = (files.filter (fun it => decide (it.original_name ≠ it.new_name))).map
              (fun it => it.original_name)
      ∧ executeRename osRename
          (files.filter (fun it => decide (it.original_name ≠ it.new_name))) s0
        = executeRename osRename files s0 := by
  intro files
  induction files with
  | nil => intro s0; exact ⟨rfl, rfl, rfl, rfl, rfl⟩
  | cons it rest ih =>
    intro s0
    by_cases hsk : it.original_name = it.new_name
    · have hfil : (it :: rest).filter (fun x => decide (x.original_name ≠ x.new_name))
          = rest.filter (fun x => decide (x.original_name ≠ x.new_name)) := by
        rw [List.filter_cons]
        simp [hsk]
      simp only [executeRename, execOutcomes, if_pos hsk, hfil]
      exact ih s0
    · have hfil : (it :: rest).filter (fun x => decide (x.original_name ≠ x.new_name))
          = it :: rest.filter (fun x => decide (x.original_name ≠ x.new_name)) := by
        rw [List.filter_cons]
        simp [hsk]
      obtain ⟨ih1, ih2, ih3, ih4, ih5⟩ :=
        ih (osRename s0 it.path (parentJoin it.path it.new_name)).1
      rcases hr : osRename s0 it.path (parentJoin it.path it.new_name) with ⟨s1, o⟩
      rw [hr] at ih1 ih2 ih3 ih4 ih5
      dsimp only at ih1 ih2 ih3 ih4 ih5
      rcases o with _ | msg
      · refine ⟨?_, ?_, ?_, ?_, ?_⟩
        · simp only [executeRename, execOutcomes, if_neg hsk, hr]
          exact ih1
        · simp only [executeRename, execOutcomes, if_neg hsk, hr, List.countP_cons]
          simp only [Option.isNone_none, ih2]
          rfl
        · simp only [executeRename, execOutcomes, if_neg hsk, hr, List.filterMap_cons]
          simp only [Option.map_none', ih3]
        · simp only [execOutcomes, if_neg hsk, hr, hfil, List.map_cons, List.filter_cons]
          rw [ih4]
        · rw [hfil]
          simp only [executeRename, if_neg hsk, hr]
          rw [ih5]
      · refine ⟨?_, ?_, ?_, ?_, ?_⟩
        · simp only [executeRename, execOutcomes, if_neg hsk, hr]
          exact ih1
        · simp only [executeRename, execOutcomes, if_neg hsk, hr, List.countP_cons]
          simp only [Option.isNone_some, ih2]
          rfl
        · simp only [executeRename, execOutcomes, if_neg hsk, hr, List.filterMap_cons]
          simp only [Option.map_some', ih3]
        · simp only [execOutcomes, if_neg hsk, hr, hfil, List.map_cons, List.filter_cons]
          rw [ih4]
        · rw [hfil]
          simp only [executeRename, if_neg hsk, hr]
          rw [ih5]

/-! ### Claim theorems -/

/-- C1 counterexample: for the batch `["a.txt", "b.txt"]` and the
Suffix/start 1/increment 1/pad 2/separator "_" configuration, the
planner computes `["a_02.txt", "b_03.txt"]`, not the claimed
`["a_01.txt", "b_02.txt"]`: the first item receives sequence index 1
and the numbering stage computes `start + index * increment = 2`. -/
theorem c1_counterexample :
    (update_previews resubId c1Files c1Config).map (List.map FileItem.new_name)
      = some ["a_02.txt", "b_03.txt"]
    ∧ (["a_02.txt", "b_03.txt"] : List String) ≠ ["a_01.txt", "b_02.txt"] :=
  ⟨rfl, by decide⟩

/-- C1 (corrected): for the batch `["a.txt", "b.txt"]` and the
Suffix/start 1/increment 1/pad 2/separator "_" configuration with every
other stage at its identity setting, planning computes the new names
`["a_02.txt", "b_03.txt"]` in order (the numbering value for the k-th
item, 1-based, is `start + k * increment`). -/
theorem c1_amended_plan :
    (update_previews resubId c1Files c1Config).map (List.map FileItem.new_name)
      = some ["a_02.txt", "b_03.txt"] := rfl

/-- C2 (confirmed): for every configuration whose numbering mode is not
None and every sequence index, the numbering stage builds its token by
zero-padding the decimal representation of
`value = start + sequence_index * increment` to the configured width
(the padded token's length is `max pad (len value)`), and the separator
is placed before the number in Suffix mode and after the number in
Prefix and Insert modes. -/
theorem c2_numbering_token (cfg : RenameConfig) (i : Int) (stem : String)
    (_hmode : cfg.num_mode ≠ NumMode.None) :
    ((pyZfill cfg.num_pad (toString (cfg.num_start + i * cfg.num_incr))).data.length
        = max cfg.num_pad.toNat (toString (cfg.num_start + i * cfg.num_incr)).data.length)
    ∧ (cfg.num_mode = NumMode.Suffix →
        numberingStage cfg i stem
          = stem ++ (cfg.num_sep
              ++ pyZfill cfg.num_pad (toString (cfg.num_start + i * cfg.num_incr))))
    ∧ (cfg.num_mode = NumMode.Pre →
        numberingStage cfg i stem
          = (pyZfill cfg.num_pad (toString (cfg.num_start + i * cfg.num_incr))
              ++ cfg.num_sep) ++ stem)
    ∧ (cfg.num_mode = NumMode.Insert →
        numberingStage cfg i stem
          = pySliceTo stem cfg.num_at
            ++ (pyZfill cfg.num_pad (toString (cfg.num_start + i * cfg.num_incr))
                ++ cfg.num_sep)
            ++ pySliceFrom stem cfg.num_at) := by
  refine ⟨pyZfill_length _ _, ?_, ?_, ?_⟩
  · intro hm
    simp [numberingStage, hm]
  · intro hm
    simp [numberingStage, hm]
  · intro hm
    simp [numberingStage, hm]

/-- C2 witness: the Suffix case at a concrete configuration, index 4
and stem "img". -/
theorem c2_numbering_token_witness :
    numberingStage c2ConfigW 4 "img"
      = "img" ++ ("-" ++ pyZfill c2ConfigW.num_pad
          (toString (c2ConfigW.num_start + 4 * c2ConfigW.num_incr))) :=
  (c2_numbering_token c2ConfigW 4 "img" (by decide)).2.1 rfl

/-- C3 counterexample: after the planning pass the status field still
holds the loaded value "OK" — it is never set to "Unchanged" or
"Pending" (the source's `update_previews` assigns only `new_name`, and
`FileItem.status` defaults to "OK"). -/
theorem c3_counterexample :
    (update_previews resubId [itemA] identityConfig).map (List.map FileItem.status)
      = some ["OK"]
    ∧ ("OK" : String) ≠ "Unchanged" ∧ ("OK" : String) ≠ "Pending" :=
  ⟨rfl, by decide, by decide⟩

/-- C3 (corrected): for every batch and configuration on which the pass
completes, planning computes each item's `new_name` as
`process(original_name, config, k + 1)` where `k + 1` is the item's
1-based position (the first item receives sequence index 1); the
`status` field is not touched by the pass (it keeps its prior value,
"OK" as loaded), and `original_name` is preserved.  The
changed/unchanged distinction is surfaced only through the preview's
colour role, not through `status`. -/
theorem c3_amended_planning (resub : String → String → String → Option String)
    (files files' : List FileItem) (cfg : RenameConfig)
    (h : update_previews resub files cfg = some files') :
    files'.length = files.length ∧
    ∀ k (hk : k < files.length) (hk' : k < files'.length),
      some ((files'.get ⟨k, hk'⟩).new_name)
        = process resub ((files.get ⟨k, hk⟩).original_name) cfg ((k + 1 : Nat) : Int)
      ∧ (files'.get ⟨k, hk'⟩).status = (files.get ⟨k, hk⟩).status
      ∧ (files'.get ⟨k, hk'⟩).original_name = (files.get ⟨k, hk⟩).original_name := by
  obtain ⟨hlen, hspec⟩ := updatePreviewsAux_spec resub cfg files files' 0 h
  refine ⟨hlen, ?_⟩
  intro k hk hk'
  have hs := hspec k hk hk'
  rw [show 0 + k + 1 = k + 1 from by omega] at hs
  exact hs

/-- C3 witness: the single-item identity batch, position 0. -/
theorem c3_amended_planning_witness :
    some (([itemA].get ⟨0, Nat.zero_lt_one⟩).new_name)
      = process resubId (([itemA].get ⟨0, Nat.zero_lt_one⟩).original_name)
          identityConfig ((0 + 1 : Nat) : Int) :=
  ((c3_amended_planning resubId [itemA] [itemA] identityConfig rfl).2
    0 Nat.zero_lt_one Nat.zero_lt_one).1

/-- C4 counterexample: in the plan computed from `["x.txt", "b.txt"]`
under the Fixed-name-"x" configuration, both items compute the new name
"x.txt", yet only the changed item is coloured red: the first member of
the duplicate group (whose new name equals its own original name) gets
no collision mark, so not every member of the group is marked. -/
theorem c4_counterexample :
    update_previews resubId c4Files fixedXConfig = some c4Plan
    ∧ (c4Plan.get ⟨0, by decide⟩).new_name = (c4Plan.get ⟨1, by decide⟩).new_name
    ∧ c4Plan.get ⟨0, by decide⟩ ≠ c4Plan.get ⟨1, by decide⟩
    ∧ foregroundColor c4Plan (c4Plan.get ⟨0, by decide⟩) = none
    ∧ foregroundColor c4Plan (c4Plan.get ⟨1, by decide⟩) = some PreviewColor.red :=
  ⟨rfl, rfl, by decide, rfl, rfl⟩

/-- C4 (corrected): whenever two distinct items of the plan compute the
same `new_name`, every member of that duplicate group whose new name
differs from its own original name is marked as a collision (red);
a member whose new name equals its own original name receives no mark
at all (it is displayed as unchanged, not as a collision). -/
theorem c4_amended_collision (files : List FileItem) (i j : Nat)
    (hi : i < files.length) (hj : j < files.length) (hij : i ≠ j)
    (hnn : (files.get ⟨i, hi⟩).new_name = (files.get ⟨j, hj⟩).new_name) :
    ∀ k (hk : k < files.length),
      (files.get ⟨k, hk⟩).new_name = (files.get ⟨i, hi⟩).new_name →
      ((files.get ⟨k, hk⟩).new_name ≠ (files.get ⟨k, hk⟩).original_name →
        foregroundColor files (files.get ⟨k, hk⟩) = some PreviewColor.red)
      ∧ ((files.get ⟨k, hk⟩).new_name = (files.get ⟨k, hk⟩).original_name →
        foregroundColor files (files.get ⟨k, hk⟩) = none) := by
  intro k hk hkv
  have hmi : i < (files.map (fun f => f.new_name)).length := by
    simpa using hi
  have hmj : j < (files.map (fun f => f.new_name)).length := by
    simpa using hj
  have hgi : (files.map (fun f => f.new_name)).get ⟨i, hmi⟩ = (files.get ⟨i, hi⟩).new_name := by
    simp
  have hgj : (files.map (fun f => f.new_name)).get ⟨j, hmj⟩ = (files.get ⟨j, hj⟩).new_name := by
    simp
  have hcnt : 2 ≤ (files.map (fun f => f.new_name)).count ((files.get ⟨i, hi⟩).new_name) := by
    rcases Nat.lt_or_ge i j with hlt | hge
    · have h2 := twoLeCountOfGet (files.map (fun f => f.new_name)) i j hmi hmj hlt
        (by rw [hgi, hgj]; exact hnn)
      rwa [hgi] at h2
    · have hgt : j < i := by omega
      have h2 := twoLeCountOfGet (files.map (fun f => f.new_name)) j i hmj hmi hgt
        (by rw [hgi, hgj]; exact hnn.symm)
      rw [hgj] at h2
      rwa [← hnn] at h2
  constructor
  · intro hne
    unfold foregroundColor
    rw [if_pos hne, if_pos (by rw [hkv]; omega)]
  · intro heq
    unfold foregroundColor
    rw [if_neg (not_ne_iff.mpr heq)]

/-- C4 witness: a plan with two distinct changed items colliding on
"x.txt"; the first is coloured red by the amended theorem. -/
theorem c4_amended_collision_witness :
    foregroundColor c4PlanW (c4PlanW.get ⟨0, by decide⟩) = some PreviewColor.red :=
  ((c4_amended_collision c4PlanW 0 1 (by decide) (by decide) (by decide) (by decide))
    0 (by decide) rfl).1 (by decide)

/-- C5 (code bug): `transform` is not total.  With a case-insensitive
substring replace configured (`replace_str = "a"`, Match Case off) and
a replacement text containing the bad escape `\q`, the unguarded
`pattern.sub(config.replace_with, stem)` of stage 3 raises `re.error`
(CPython rejects the replacement template before matching), and no
handler exists in `process`: here the pipeline evaluates to `none`
(an escaped exception) on the name "x". -/
theorem c5_bad_template_raises : process resubId "x" c5Config 1 = none := by
  simp [process, pStem, pSuffix, regexStage, nameStage, replaceStage, c5Config,
    identityConfig, parseTemplate]

/-- C6 counterexample: the identity configuration does not return every
name unchanged: `pathlib` drops `"."` components, so `transform` maps
the name "." to "" (an empty stem and extension), not to ".". -/
theorem c6_counterexample :
    process resubId "." identityConfig 1 = some ""
    ∧ ("" : String) ≠ "." :=
  ⟨rfl, by decide⟩

/-- C6 (corrected): for every name that contains no path separator and
is not "." — i.e. every name a directory enumeration can produce — and
every sequence index, `transform` with the identity configuration
(regex match empty, name mode Keep, replace string empty, case mode
Same, removal parameters zero/empty, insertion texts empty, numbering
mode None, extension mode Same) returns the name unchanged, for any
stage-1 substitution oracle. -/
theorem c6_amended_identity (resub : String → String → String → Option String)
    (name : String) (i : Int) (h1 : '/' ∉ name.data) (h2 : name ≠ ".") :
    process resub name identityConfig i = some name := by
  have h0 : process resub name identityConfig i = some (pStem name ++ pSuffix name) := rfl
  rw [h0]
  unfold pStem pSuffix
  rw [strMkAppend, stem_append_suffix, pathName_eq_self name h1 h2]

/-- C6 witness: the identity configuration leaves "report v1.txt"
unchanged at index 7. -/
theorem c6_amended_identity_witness :
    process resubId "report v1.txt" identityConfig 7 = some "report v1.txt" :=
  c6_amended_identity resubId "report v1.txt" 7 (by decide) (by decide)

/-- C7 counterexample: the split rule as claimed ("extension = text
from the last dot onward, empty only for dotless names and dotfiles")
fails on the trailing-dot name "file.": the claimed rule yields ".",
while the code (pathlib, which requires `0 < i < len - 1`) yields an
empty extension and keeps the whole name as the stem. -/
theorem c7_counterexample :
    pSuffix "file." = "" ∧ pStem "file." = "file."
    ∧ claimExtRule "file.".data = ['.']
    ∧ ("" : String).data ≠ ['.'] :=
  ⟨rfl, rfl, rfl, by decide⟩

/-- C7 (corrected): the stem/extension split satisfies: stem and
extension always recombine to the name; the extension is the text from
the last dot onward exactly when that dot is neither the first nor the
last character of the name (then the stem is everything before it); it
is empty when the name has no dot, when the only text before the last
dot is empty (dotfiles), or when the last dot is the final character
(trailing-dot names keep the whole name as stem).  In particular,
"archive.tar.gz" splits into "archive.tar" and ".gz", and ".gitignore"
splits into ".gitignore" and "". -/
theorem c7_amended_split :
    (∀ nm : List Char, nameStem nm ++ nameSuffix nm = nm)
    ∧ (∀ nm s t : List Char, nm = s ++ '.' :: t → '.' ∉ t → s ≠ [] → t ≠ [] →
        nameSuffix nm = '.' :: t ∧ nameStem nm = s)
    ∧ (∀ nm : List Char, '.' ∉ nm → nameSuffix nm = [] ∧ nameStem nm = nm)
    ∧ (∀ nm s t : List Char, nm = s ++ '.' :: t → '.' ∉ t → s = [] ∨ t = [] →
        nameSuffix nm = [] ∧ nameStem nm = nm)
    ∧ pStem "archive.tar.gz" = "archive.tar" ∧ pSuffix "archive.tar.gz" = ".gz"
    ∧ pStem ".gitignore" = ".gitignore" ∧ pSuffix ".gitignore" = "" := by
  refine ⟨stem_append_suffix, ?_, ?_, ?_, rfl, rfl, rfl, rfl⟩
  · intro nm s t heq hnt hs ht
    subst heq
    have hrf := pyRfindDot_last s t hnt
    have hcond : 0 < pyRfindDot (s ++ '.' :: t)
        ∧ pyRfindDot (s ++ '.' :: t) < ((s ++ '.' :: t).length : Int) - 1 := by
      rw [hrf]
      have hsl : 0 < s.length := List.length_pos.mpr hs
      have htl : 0 < t.length := List.length_pos.mpr ht
      simp only [List.length_append, List.length_cons]
      constructor
      · exact_mod_cast hsl
      · push_cast
        omega
    unfold nameSuffix nameStem
    rw [hrf, if_pos (hrf ▸ hcond), if_pos (hrf ▸ hcond)]
    constructor
    · rw [Int.toNat_ofNat, List.drop_left]
    · rw [Int.toNat_ofNat, List.take_left]
  · intro nm h
    have hneg := (pyRfindDot_eq_neg_one_iff nm).mpr h
    unfold nameSuffix nameStem
    rw [hneg]
    norm_num
  · intro nm s t heq hnt hst
    subst heq
    have hrf := pyRfindDot_last s t hnt
    have hcond : ¬ (0 < pyRfindDot (s ++ '.' :: t)
        ∧ pyRfindDot (s ++ '.' :: t) < ((s ++ '.' :: t).length : Int) - 1) := by
      rw [hrf]
      simp only [List.length_append, List.length_cons]
      rcases hst with h0 | h0 <;> subst h0
      · simp
      · simp only [List.length_nil]
        push_cast
        omega
    unfold nameSuffix nameStem
    rw [if_neg hcond, if_neg hcond]
    exact ⟨rfl, rfl⟩

/-- C7 witness: the characterisation applied to "photo.jpeg". -/
theorem c7_amended_split_witness :
    nameSuffix "photo.jpeg".data = '.' :: "jpeg".data
    ∧ nameStem "photo.jpeg".data = "photo".data :=
  c7_amended_split.2.1 "photo.jpeg".data "photo".data "jpeg".data (by decide) (by decide)
    (by decide) (by decide)

/-- C8 counterexample: title-casing is not whitespace-delimited: for
the stem "a-b" the code (Python `str.title`) yields "A-B" (the dash is
a word boundary), while the claimed whitespace-only rule yields
"A-b". -/
theorem c8_counterexample :
    caseStage CaseMode.Title "a-b" = "A-B"
    ∧ titleWhitespaceRule "a-b" = "A-b"
    ∧ ("A-B" : String) ≠ "A-b" :=
  ⟨rfl, rfl, by decide⟩

/-- C8 (corrected): for every stem, the Title case-conversion stage
capitalises a character exactly when the preceding character is not a
letter (any non-letter acts as a word boundary, not only whitespace)
and lowercases every letter that follows another letter — the
behaviour of Python `str.title`. -/
theorem c8_amended_title (s : String) :
    caseStage CaseMode.Title s = titleNonLetterBoundaryRule s := by
  show pyTitle s = titleNonLetterBoundaryRule s
  unfold pyTitle titleNonLetterBoundaryRule
  have h := pyTitleAux_zip s.data none
  simp only [Option.map_none', Option.getD_none] at h
  exact congrArg String.mk h

/-- C9 (confirmed): execution iterates the plan in order over any
filesystem behaviour `osRename`: items whose new name equals their
original name are skipped entirely (running on the filtered list of
changed items gives the same result); each changed item produces
exactly one rename attempt, in plan order (the outcome list's names are
precisely the changed items' original names in order); the success
count is the number of successful attempts, and the failure list holds
one `"original_name: message"` entry per failing attempt, in order —
a failure never aborts the remaining items. -/
theorem c9_execute_refines {σ : Type}
    (osRename : σ → String → String → σ × Option String)
    (files : List FileItem) (s0 : σ) :
    (executeRename osRename files s0).1 = (execOutcomes osRename files s0).1
    ∧ (executeRename osRename files s0).2.1
        = (execOutcomes osRename files s0).2.countP (fun p => p.2.isNone)
    ∧ (executeRename osRename files s0).2.2
        = (execOutcomes osRename files s0).2.filterMap
            (fun p => p.2.map (fun m => p.1 ++ ": " ++ m))
    ∧ (execOutcomes osRename files s0).2.map Prod.fst
        = (files.filter (fun it => decide (it.original_name ≠ it.new_name))).map
            (fun it => it.original_name)
    ∧ executeRename osRename
        (files.filter (fun it => decide (it.original_name ≠ it.new_name))) s0
      = executeRename osRename files s0 :=
  executeRename_refines osRename files s0

/-- C10 (confirmed): in the From/To removal sub-step, an unset `from`
(value 0) together with `to = t > 0` behaves as position 1: the step
removes the first `t` characters of the stem; and when both `from` and
`to` are 0 the step is a no-op. -/
theorem c10_range_removal (t : Int) (ht : 0 < t) (stem : String) :
    removeRangeStep 0 t stem = ⟨stem.data.drop t.toNat⟩
    ∧ removeRangeStep 0 0 stem = stem := by
  constructor
  · unfold removeRangeStep
    rw [if_pos (Or.inr ht)]
    simp only [show max (0 : Int) (0 - 1) = 0 from rfl, if_pos ht]
    by_cases hl : (0 : Int) < (stem.data.length : Int)
    · rw [if_pos hl]
      unfold pySliceTo pySliceFrom pyBound
      rw [if_neg (by omega), if_neg (by omega)]
      simp only [Int.toNat_zero, Nat.zero_min, List.take_zero]
      rw [strMkAppend, List.nil_append, dropMinLength]
    · rw [if_neg hl]
      rcases stem with ⟨d⟩
      simp only [strDataMk] at hl ⊢
      have hd : d = [] := by
        have hlen : d.length = 0 := by omega
        exact List.eq_nil_of_length_eq_zero hlen
      subst hd
      rw [List.drop_nil]
  · rfl

/-- C10 witness: removing range [unset, 2] from "abcdef" drops the
first two characters; the all-zero range is a no-op. -/
theorem c10_range_removal_witness :
    removeRangeStep 0 2 "abcdef" = ⟨"abcdef".data.drop (2 : Int).toNat⟩
    ∧ removeRangeStep 0 0 "abcdef" = "abcdef" :=
  c10_range_removal 2 (by decide) "abcdef"
